import Mathlib

/-!
# Verification of the Flappy-Bird DQN training core

Shallow embedding of the reinforcement-learning training loop of the
repository: the `Agent` class (experience-replay memory, epsilon-greedy
training episodes with pause/resume) from `agent.js`, the reward
computation of `environment.js`, and the agent-level part of the
application `reset` from `main.js`.

JavaScript numbers are modelled as exact rationals (`ℚ`); the numeric
literals of the source (`0.1`, `5.0`, `-10.0`, `0.01`, ...) become the
corresponding rationals.  Randomness (action selection, environment
behaviour, sampling indices) is modelled by explicit oracles: a function
from the tick index to the tick's outcome, and a list of proposed indices
for batch sampling.  The value model (`tf` network) is abstracted away:
its predictions enter only through the oracles, and the one place where
the training loop invokes the learning step (`replay`) is recorded by a
ghost Boolean in the result.
-/

/-- `maxSteps = 30000`, the per-episode step cap of `Agent.trainEpisode`. -/
def maxSteps : ℕ := 30000

/-- One recorded experience, as assembled by `Agent.remember`:
`{state, action, reward, nextState, done}`. -/
structure Transition (σ : Type) where
  state : σ
  action : ℕ
  reward : ℚ
  nextState : σ
  done : Bool
deriving DecidableEq

/-- The replay memory of the agent: the backing array `this.memory`
together with the running insertion counter `this.memoryIndex`. -/
structure Mem (α : Type) where
  memory : List α
  memoryIndex : ℕ
deriving DecidableEq

/-- The empty replay memory (`this.memory = []`, `this.memoryIndex = 0`). -/
def Mem.empty (α : Type) : Mem α := ⟨[], 0⟩

/-- `Agent.remember` (agent.js lines 54–69), with the experience already
assembled: if `this.memory.length < this.memoryMaxLen` push, else
overwrite slot `this.memoryIndex % this.memoryMaxLen`; then increment
`this.memoryIndex`. -/
def remember (C : ℕ) (s : Mem α) (x : α) : Mem α :=
  if s.memory.length < C then
    ⟨s.memory ++ [x], s.memoryIndex + 1⟩
  else
    ⟨s.memory.set (s.memoryIndex % C) x, s.memoryIndex + 1⟩

/-- Folding a whole sequence of `remember` calls into an initially empty
memory of capacity `C`. -/
def insertAll (C : ℕ) (xs : List α) : Mem α :=
  xs.foldl (remember C) (Mem.empty α)

/-- Observation of the game used by `Environment.calculateReward`
(environment.js lines 62–95): current and previous score, whether the
game state is `GAME_OVER`, the geometry entering `diffY`, and the last
action (`0 = STAY`, `1 = JUMP`). -/
structure EnvObs where
  score : ℕ
  previousScore : ℕ
  gameOver : Bool
  tubeY : ℚ
  tubeGap : ℚ
  birdY : ℚ
  birdHeight : ℚ
  lastAction : ℕ
deriving DecidableEq

/-- The signed vertical offset
`(closestTube.y + 17 + tubeGap/2) - (birdY + birdHeight/2)` used in the
reward computation (`tubeUpperHeight = 17`). -/
def diffY (e : EnvObs) : ℚ :=
  (e.tubeY + 17 + e.tubeGap / 2) - (e.birdY + e.birdHeight / 2)

/-- `Environment.calculateReward` (environment.js lines 62–95).
Returns the reward together with the updated `this.previousScore`
(which the source assigns inside the score-increase branch). -/
def calculateReward (e : EnvObs) : ℚ × ℕ :=
  let reward : ℚ := 1 / 10
  let scored := decide (e.previousScore < e.score)
  let reward := if scored then (5 : ℚ) else reward
  let newPrev := if scored then e.score else e.previousScore
  if e.gameOver then
    let reward : ℚ := -10
    if 0 < diffY e ∧ e.lastAction = 1 then (reward - 5, newPrev)
    else if diffY e < 0 ∧ e.lastAction = 0 then (reward - 5, newPrev)
    else (reward, newPrev)
  else
    (reward - |diffY e| * (1 / 100), newPrev)

/-- The per-transition target computation of `Agent.replay`
(agent.js lines 92–106): starting from the predicted Q-values for
`state`, the slot of the taken action is set to `reward` when the
transition is terminal, and to `reward + gamma * nextMax` otherwise,
where `nextMax` abstracts `max` over the (target-)network prediction at
`nextState`.  All other slots pass through unchanged. -/
def qTarget (gamma : ℚ) (qValues : List ℚ) (tr : Transition σ) (nextMax : ℚ) : List ℚ :=
  if tr.done then qValues.set tr.action tr.reward
  else qValues.set tr.action (tr.reward + gamma * nextMax)

/-- The construction-time configuration object of the `Agent`
(agent.js lines 3–14); `none` models an absent field. -/
structure Config where
  gamma : Option ℚ
  epsilon : Option ℚ
  epsilonDecay : Option ℚ
  epsilonMin : Option ℚ
  batchSize : Option ℕ
  memoryMaxLen : Option ℕ
  targetUpdateFreq : Option ℕ
deriving DecidableEq

/-- JavaScript `v || d` for a numeric configuration field: an absent
field or the (falsy) value `0` both yield the default `d`. -/
def jsOrQ (v : Option ℚ) (d : ℚ) : ℚ :=
  match v with
  | none => d
  | some x => if x = 0 then d else x

/-- JavaScript `v || d` for a natural-number configuration field. -/
def jsOrN (v : Option ℕ) (d : ℕ) : ℕ :=
  match v with
  | none => d
  | some x => if x = 0 then d else x

/-- The snapshot `this.currentEpisodeState = {state, done, totalReward,
steps}` captured when training is halted mid-episode
(agent.js lines 184–189). -/
structure EpSnap (σ : Type) where
  state : σ
  done : Bool
  totalReward : ℚ
  steps : ℕ
deriving DecidableEq

/-- The mutable fields of the `Agent` object relevant to the training
loop (agent.js lines 3–33).  The value model is abstracted away. -/
structure AgentState (σ : Type) where
  gamma : ℚ
  epsilon : ℚ
  epsilonDecay : ℚ
  epsilonMin : ℚ
  batchSize : ℕ
  memoryMaxLen : ℕ
  targetUpdateFreq : ℕ
  mem : Mem (Transition σ)
  episode : ℕ
  totalSteps : ℕ
  isTraining : Bool
  currentEpisodeState : Option (EpSnap σ)
  isPaused : Bool
  episodeRewards : List ℚ
  episodeScores : List ℕ
  episodeLengths : List ℕ
deriving DecidableEq

namespace Agent

/-- The `Agent` constructor (agent.js lines 3–33): hyperparameters via
`config.x || default`, empty memory, zeroed counters and statistics. -/
def new (σ : Type) (cfg : Config) : AgentState σ where
  gamma := jsOrQ cfg.gamma (99 / 100)
  epsilon := jsOrQ cfg.epsilon (3 / 10)
  epsilonDecay := jsOrQ cfg.epsilonDecay (9995 / 10000)
  epsilonMin := jsOrQ cfg.epsilonMin (1 / 100)
  batchSize := jsOrN cfg.batchSize 32
  memoryMaxLen := jsOrN cfg.memoryMaxLen 10000
  targetUpdateFreq := jsOrN cfg.targetUpdateFreq 10
  mem := Mem.empty _
  episode := 0
  totalSteps := 0
  isTraining := false
  currentEpisodeState := none
  isPaused := false
  episodeRewards := []
  episodeScores := []
  episodeLengths := []

/-- `Agent.reset` (agent.js lines 260–272): clears training state,
memory and statistics.  Note it does not touch `epsilon` or the other
hyperparameters. -/
def reset (s : AgentState σ) : AgentState σ :=
  { s with
    isTraining := false
    currentEpisodeState := none
    isPaused := false
    episode := 0
    totalSteps := 0
    mem := Mem.empty _
    episodeRewards := []
    episodeScores := []
    episodeLengths := [] }

/-- `Agent.sampleBatch`'s index-selection loop (agent.js lines 115–128),
with the stream of random draws `Math.floor(Math.random() * length)`
made explicit as the proposal list `ps`.  `acc` is the `indices` set,
kept as a list in reverse insertion order.  The loop stops as soon as
`n` distinct indices have been collected; `none` models the execution in
which the proposal stream is exhausted first (the source would keep
drawing). -/
def chooseIndices (n : ℕ) : List ℕ → List ℕ → Option (List ℕ)
  | acc, ps =>
    if n ≤ acc.length then some acc.reverse
    else
      match ps with
      | [] => none
      | p :: rest =>
        if p ∈ acc then chooseIndices n acc rest
        else chooseIndices n (p :: acc) rest

/-- `Agent.sampleBatch` (agent.js lines 115–128): the batch is the list
of memory entries at the chosen indices, in the order chosen.
`d` is a default value used only for the (never reached) out-of-range
read. -/
def sampleBatch (mem : List α) (n : ℕ) (ps : List ℕ) (d : α) : Option (List α) :=
  (chooseIndices n [] ps).map (fun is => is.map (fun i => mem.getD i d))

/-- `Agent.sampleBatch` viewed as a state transformer on the replay
memory: the source method only reads `this.memory` and assigns nothing,
so it returns the memory unchanged. -/
def sampleBatchS (s : Mem α) (n : ℕ) (ps : List ℕ) (d : α) :
    Option (List α) × Mem α :=
  (sampleBatch s.memory n ps d, s)

end Agent

/-- The agent-relevant effect of the application-level
`FlappyBirdDQN.reset` (main.js lines 451–452): call `agent.reset()`
and then restore `agent.epsilon` to the hard-coded initial `0.3`. -/
def appReset (s : AgentState σ) : AgentState σ :=
  { Agent.reset s with epsilon := 3 / 10 }

/-- The outcome of one simulation tick during an episode: the sampled
action (`Agent.act`, whose randomness and model predictions this
abstracts) and the `{state, reward, done}` returned by
`Environment.step` for it.  The oracle is indexed by the episode step
count, so "same random choices and same environment behaviour" for two
runs means using the same oracle. -/
structure TickOut (σ : Type) where
  action : ℕ
  nextState : σ
  reward : ℚ
  done : Bool
deriving DecidableEq

/-- The local variables of `Agent.trainEpisode`'s rollout loop together
with the agent fields the loop mutates (`this.memory` via `remember`,
`this.totalSteps`). -/
structure LoopSt (σ : Type) where
  state : σ
  done : Bool
  totalReward : ℚ
  steps : ℕ
  mem : Mem (Transition σ)
  totalSteps : ℕ
deriving DecidableEq

/-- The loop body of one tick (agent.js lines 157–179): choose an
action and step the environment (both via the oracle `o`, indexed by
the episode step count), `remember` the transition
`(state, action, reward, nextState, done)`, move to the next state, and
accumulate `totalReward`, `steps` and `this.totalSteps`. -/
def tickStep (C : ℕ) (o : ℕ → TickOut σ) (v : LoopSt σ) : LoopSt σ :=
  ⟨(o v.steps).nextState, (o v.steps).done,
    v.totalReward + (o v.steps).reward, v.steps + 1,
    remember C v.mem ⟨v.state, (o v.steps).action, (o v.steps).reward,
      (o v.steps).nextState, (o v.steps).done⟩,
    v.totalSteps + 1⟩

/-- The rollout loop of `Agent.trainEpisode` (agent.js lines 156–194).
Each iteration runs one `tickStep`; then, mirroring the in-loop check
`if (!this.isTraining && !done)`, it pauses when the halt oracle fires
on a non-terminal tick, returning `true` with the state to snapshot.
`halt k` is whether `this.isTraining` has been set to `false` by the
time the check after tick `k` runs; since the code is single-threaded,
the top-of-loop `this.isTraining` conjunct can only observe the same
value, so checking it once per tick is faithful.  The loop condition
`!done && steps < maxSteps` is re-checked at the top; the loop
terminates because `steps` strictly increases towards `maxSteps`. -/
def epLoop (C : ℕ) (o : ℕ → TickOut σ) (halt : ℕ → Bool) (v : LoopSt σ) :
    Bool × LoopSt σ :=
  if _h : v.done = false ∧ v.steps < maxSteps then
    if halt v.steps = true ∧ (o v.steps).done = false then (true, tickStep C o v)
    else epLoop C o halt (tickStep C o v)
  else (false, v)
termination_by maxSteps - v.steps
decreasing_by
  have := _h.2
  simp only [tickStep]
  omega

/-- The episode-initialisation stage of `Agent.trainEpisode`
(agent.js lines 136–154): when `this.currentEpisodeState` is non-null
and `this.isPaused`, restore the loop variables from the snapshot and
clear `this.isPaused` (the snapshot itself is not cleared here);
otherwise start a fresh episode from the environment's reset state
`s0` with zeroed counters. -/
def initVars (s0 : σ) (a : AgentState σ) : AgentState σ × LoopSt σ :=
  match a.currentEpisodeState, a.isPaused with
  | some es, true =>
    ({ a with isPaused := false },
      ⟨es.state, es.done, es.totalReward, es.steps, a.mem, a.totalSteps⟩)
  | some _, false => (a, ⟨s0, false, 0, 0, a.mem, a.totalSteps⟩)
  | none, _ => (a, ⟨s0, false, 0, 0, a.mem, a.totalSteps⟩)

/-- The completed-episode result object of `Agent.trainEpisode`
(agent.js lines 225–230); `episode` holds the already incremented
`this.episode`. -/
structure Result where
  episode : ℕ
  score : ℕ
  reward : ℚ
  steps : ℕ
deriving DecidableEq

/-- `Agent.trainEpisode` (agent.js lines 130–231).  `o` is the per-tick
oracle, `halt` the external-stop oracle, `s0` the state returned by
`env.reset()`, and `finalScore` the value of `env.game.score` read when
statistics are recorded.  Returns the result (`none` is the source's
`return null` sentinel for an incomplete episode), the mutated agent,
and a ghost flag recording whether the learning step `this.replay(...)`
was invoked on this call.  The DDQN target-network sync and the model
update inside `replay` act only on the abstracted value model; the
statistics pushes, epsilon decay and episode increment are embedded
exactly in source order. -/
def trainEpisodeM (o : ℕ → TickOut σ) (halt : ℕ → Bool) (s0 : σ)
    (finalScore : ℕ) (a : AgentState σ) :
    Option Result × AgentState σ × Bool :=
  let p := initVars s0 a
  let a1 := p.1
  let r := epLoop a1.memoryMaxLen o halt p.2
  let v := r.2
  if r.1 then
    (none,
      { a1 with
        currentEpisodeState := some ⟨v.state, v.done, v.totalReward, v.steps⟩
        isPaused := true
        mem := v.mem
        totalSteps := v.totalSteps },
      false)
  else
    let a2 :=
      { a1 with
        currentEpisodeState := (none : Option (EpSnap σ))
        isPaused := false
        mem := v.mem
        totalSteps := v.totalSteps }
    let a3 :=
      { a2 with
        epsilon := max a2.epsilonMin (a2.epsilon * a2.epsilonDecay)
        episodeRewards := a2.episodeRewards ++ [v.totalReward]
        episodeScores := a2.episodeScores ++ [finalScore]
        episodeLengths := a2.episodeLengths ++ [v.steps]
        episode := a2.episode + 1 }
    (some ⟨a3.episode, finalScore, v.totalReward, v.steps⟩, a3, true)

/-- The epsilon decay applied after each completed episode
(agent.js line 204): `epsilon = Math.max(epsilonMin, epsilon * epsilonDecay)`. -/
def epsUpdate (m d e : ℚ) : ℚ := max m (e * d)

/-- `k` successive applications of the post-episode epsilon decay. -/
def epsIter (m d e : ℚ) : ℕ → ℚ
  | 0 => e
  | k + 1 => epsUpdate m d (epsIter m d e k)

/-! ### Concrete instances used to witness the theorems -/

/-- The configuration `main.js` passes to the `Agent` constructor
(main.js lines 20–28). -/
def cfgMain : Config :=
  ⟨some (99 / 100), some (3 / 10), some (9995 / 10000), some (1 / 100),
    some 32, some 10000, some 10⟩

/-- A configuration that explicitly passes `0` for every field. -/
def cfgZero : Config :=
  ⟨some 0, some 0, some 0, some 0, some 0, some 0, some 0⟩

/-- The agent state produced by the constructor for `cfgMain`, written
out field by field (proved equal to `Agent.new ℕ cfgMain` below). -/
def aTest : AgentState ℕ :=
  ⟨99 / 100, 3 / 10, 9995 / 10000, 1 / 100, 32, 10000, 10,
    Mem.empty _, 0, 0, false, none, false, [], [], []⟩

/-- An agent whose `epsilon` has drifted to `0.2` — e.g. via the UI
epsilon slider (main.js line 215) or epsilon decay — before `reset()`
is called. -/
def staleAgent : AgentState ℕ :=
  { aTest with epsilon := 1 / 5 }

/-- An agent paused mid-episode, holding a live snapshot. -/
def pausedAgent : AgentState ℕ :=
  { aTest with currentEpisodeState := some ⟨5, false, 2, 3⟩, isPaused := true }

/-- A non-terminal observation on which a scoring event occurs
(`score` went from 0 to 1) with the bird one pixel below the gap
center (`diffY = -1`). -/
def envScoring : EnvObs := ⟨1, 0, false, 0, 12, 20, 8, 0⟩

/-- A terminal observation where the bird was above the gap center
(`diffY = 19 > 0`) and the last action was a jump. -/
def envCrash : EnvObs := ⟨0, 0, true, 0, 12, 0, 8, 1⟩

/-- A deterministic tick oracle: every tick takes action 0, yields
reward `1`, moves the abstract state forward, and terminates the
episode on tick 3. -/
def oTest : ℕ → TickOut ℕ :=
  fun k => ⟨0, k + 1, 1, decide (3 ≤ k)⟩

/-- The replay memory accumulated by a full episode under `oTest`. -/
def memT : Mem (Transition ℕ) :=
  ⟨[⟨0, 0, 1, 1, false⟩, ⟨1, 0, 1, 2, false⟩, ⟨2, 0, 1, 3, false⟩,
    ⟨3, 0, 1, 4, true⟩], 4⟩

/-- The replay memory accumulated by the first two ticks under `oTest`. -/
def memP : Mem (Transition ℕ) :=
  ⟨[⟨0, 0, 1, 1, false⟩, ⟨1, 0, 1, 2, false⟩], 2⟩

/-- The replay memory accumulated by the first tick under `oTest`. -/
def mem1 : Mem (Transition ℕ) :=
  ⟨[⟨0, 0, 1, 1, false⟩], 1⟩

/-- A halt oracle that requests an external stop at the check following
tick `t`. -/
def haltAt (t : ℕ) : ℕ → Bool := fun k => decide (k = t)

/-! ### Helper lemmas -/

/-- Sanity check: `aTest` is exactly the agent the constructor builds
from the `main.js` configuration. -/
theorem new_cfgMain : Agent.new ℕ cfgMain = aTest := by
  norm_num [Agent.new, cfgMain, aTest, jsOrQ, jsOrN]

/-! ### C1 — reset completeness -/

/-- C1, counterexample: the claim asserts that after the Trainer's
`reset()` the replay memory is empty, the episode index is 0, `epsilon`
equals the configured initial value (`0.3`), and the statistics arrays
are empty.  For the prior state `staleAgent` (whose `epsilon` is `0.2`)
the conjunction fails, because `Agent.reset` does not touch `epsilon`. -/
theorem reset_not_complete :
    ¬ ((Agent.reset staleAgent).mem.memory.length = 0 ∧
       (Agent.reset staleAgent).episode = 0 ∧
       (Agent.reset staleAgent).epsilon = 3 / 10 ∧
       (Agent.reset staleAgent).episodeRewards = [] ∧
       (Agent.reset staleAgent).episodeScores = [] ∧
       (Agent.reset staleAgent).episodeLengths = []) := by
  intro h
  have h3 := h.2.2.1
  norm_num [Agent.reset, staleAgent] at h3

/-- C1, amended: after `Agent.reset` the replay memory is empty, the
episode index, step counter and statistics arrays are cleared, the
pause state is cleared — but `epsilon` is left unchanged; only the
application-level reset (`FlappyBirdDQN.reset`, which follows
`agent.reset()` with `agent.epsilon = 0.3`) restores `epsilon` to the
initial `0.3`. -/
theorem reset_clears_all_but_epsilon (σ : Type) (s : AgentState σ) :
    (Agent.reset s).mem.memory.length = 0 ∧
    (Agent.reset s).mem.memoryIndex = 0 ∧
    (Agent.reset s).episode = 0 ∧
    (Agent.reset s).totalSteps = 0 ∧
    (Agent.reset s).episodeRewards = [] ∧
    (Agent.reset s).episodeScores = [] ∧
    (Agent.reset s).episodeLengths = [] ∧
    (Agent.reset s).currentEpisodeState = none ∧
    (Agent.reset s).isPaused = false ∧
    (Agent.reset s).epsilon = s.epsilon ∧
    (appReset s).epsilon = 3 / 10 := by
  simp [Agent.reset, appReset, Mem.empty]

/-! ### C3 — reward on a scoring step -/

/-- C3, counterexample: on the non-terminal scoring step `envScoring`
the reward is `4.99`, not `5.0`: the proximity penalty
`-0.01 * |diffY|` is applied on every non-terminal step, scoring steps
included. -/
theorem scoring_reward_not_five :
    envScoring.gameOver = false ∧
    envScoring.previousScore < envScoring.score ∧
    (calculateReward envScoring).1 ≠ 5 := by
  refine ⟨rfl, by norm_num [envScoring], ?_⟩
  norm_num [calculateReward, diffY, envScoring]

/-- C3, amended: on every non-terminal step with a scoring event the
reward is exactly `5.0 - 0.01 * |diffY|` — the scoring reward less the
proximity penalty — so it equals `5.0` only when the bird is exactly at
the gap center. -/
theorem scoring_reward_value (e : EnvObs) (h1 : e.gameOver = false)
    (h2 : e.previousScore < e.score) :
    (calculateReward e).1 = 5 - |diffY e| / 100 := by
  have hs : decide (e.previousScore < e.score) = true := decide_eq_true h2
  simp only [calculateReward, h1, hs, if_true, Bool.false_eq_true, if_false]
  ring

/-- C3, witness for the amended theorem at `envScoring`. -/
theorem scoring_reward_value_witness :
    (envScoring.gameOver = false ∧ envScoring.previousScore < envScoring.score) ∧
    (calculateReward envScoring).1 = 5 - |diffY envScoring| / 100 :=
  ⟨⟨rfl, by norm_num [envScoring]⟩,
    scoring_reward_value envScoring rfl (by norm_num [envScoring])⟩

/-! ### C6 — terminal wrong-side reward and its learning target -/

/-- C6: a terminal transition whose last action matches the
wrong-side-of-gap condition (jump while above the gap center, or stay
while below it) receives reward exactly `-15.0` (`-10.0` base plus the
`-5.0` penalty), and the learning step's regression target for the
taken action equals exactly that reward — for every `gamma` and every
next-state value, i.e. with no bootstrapped `γ·max` term added. -/
theorem terminal_wrong_side_target (σ : Type) (e : EnvObs) (qv : List ℚ)
    (tr : Transition σ)
    (h1 : e.gameOver = true)
    (h2 : (0 < diffY e ∧ e.lastAction = 1) ∨ (diffY e < 0 ∧ e.lastAction = 0))
    (h3 : tr.done = true) (h4 : tr.reward = (calculateReward e).1)
    (h5 : tr.action < qv.length) :
    (calculateReward e).1 = -15 ∧
    ∀ gamma nextMax : ℚ, (qTarget gamma qv tr nextMax)[tr.action]? = some (-15) := by
  have hr : (calculateReward e).1 = -15 := by
    rcases h2 with ⟨hd, ha⟩ | ⟨hd, ha⟩
    · simp only [calculateReward, h1, if_true, hd, ha, and_self]
      norm_num
    · have hd' : ¬ (0 < diffY e ∧ e.lastAction = 1) := by
        intro hc
        exact absurd hc.1 (not_lt.2 (le_of_lt hd))
      simp only [calculateReward, h1, if_true, hd', if_false, hd, ha, and_self]
      norm_num
  refine ⟨hr, fun gamma nextMax => ?_⟩
  simp only [qTarget, h3, if_true]
  rw [List.getElem?_set_self h5, h4, hr]

/-- C6, witness at `envCrash` with Q-values `[0, 0]`. -/
theorem terminal_wrong_side_target_witness :
    (envCrash.gameOver = true ∧
     ((0 < diffY envCrash ∧ envCrash.lastAction = 1) ∨
      (diffY envCrash < 0 ∧ envCrash.lastAction = 0)) ∧
     (⟨0, 1, -15, 0, true⟩ : Transition ℕ).done = true ∧
     (⟨0, 1, -15, 0, true⟩ : Transition ℕ).reward = (calculateReward envCrash).1 ∧
     (⟨0, 1, -15, 0, true⟩ : Transition ℕ).action < ([0, 0] : List ℚ).length) ∧
    ((calculateReward envCrash).1 = -15 ∧
     ∀ gamma nextMax : ℚ,
       (qTarget gamma [0, 0] (⟨0, 1, -15, 0, true⟩ : Transition ℕ) nextMax)[
         (⟨0, 1, -15, 0, true⟩ : Transition ℕ).action]? = some (-15)) :=
  ⟨⟨rfl, Or.inl ⟨by norm_num [diffY, envCrash], rfl⟩, rfl,
      by norm_num [calculateReward, diffY, envCrash], by norm_num⟩,
    terminal_wrong_side_target ℕ envCrash [0, 0] ⟨0, 1, -15, 0, true⟩ rfl
      (Or.inl ⟨by norm_num [diffY, envCrash], rfl⟩) rfl
      (by norm_num [calculateReward, diffY, envCrash]) (by norm_num)⟩

/-! ### C10 — falsy configuration values fall back to defaults -/

/-- C10: explicitly passing `0` for any hyperparameter yields the
documented default (the `config.x || default` pattern treats every
falsy value as absent), so in particular no configuration can produce
an agent with `epsilon = 0` or `epsilonMin = 0`. -/
theorem config_falsy_defaults :
    ((Agent.new ℕ cfgZero).gamma = 99 / 100 ∧
     (Agent.new ℕ cfgZero).epsilon = 3 / 10 ∧
     (Agent.new ℕ cfgZero).epsilonDecay = 9995 / 10000 ∧
     (Agent.new ℕ cfgZero).epsilonMin = 1 / 100 ∧
     (Agent.new ℕ cfgZero).batchSize = 32 ∧
     (Agent.new ℕ cfgZero).memoryMaxLen = 10000 ∧
     (Agent.new ℕ cfgZero).targetUpdateFreq = 10 ∧
     Agent.new ℕ cfgZero = Agent.new ℕ ⟨none, none, none, none, none, none, none⟩) ∧
    ∀ cfg : Config,
      (Agent.new ℕ cfg).epsilon ≠ 0 ∧ (Agent.new ℕ cfg).epsilonMin ≠ 0 := by
  constructor
  · norm_num [Agent.new, cfgZero, jsOrQ, jsOrN]
  · intro cfg
    constructor
    · show jsOrQ cfg.epsilon (3 / 10) ≠ 0
      rcases h : cfg.epsilon with _ | x
      · norm_num [jsOrQ]
      · by_cases hx : x = 0 <;> simp [jsOrQ, hx]
    · show jsOrQ cfg.epsilonMin (1 / 100) ≠ 0
      rcases h : cfg.epsilonMin with _ | x
      · norm_num [jsOrQ]
      · by_cases hx : x = 0 <;> simp [jsOrQ, hx]

/-! ### C4 — replay-memory ring invariant -/

/-- When the buffer is not yet full, `remember` appends. -/
theorem remember_append (C : ℕ) (s : Mem α) (x : α)
    (h : s.memory.length < C) :
    (remember C s x).memory = s.memory ++ [x] := by
  rw [remember, if_pos h]

/-- When the buffer is full, `remember` overwrites slot
`memoryIndex % C`. -/
theorem remember_set (C : ℕ) (s : Mem α) (x : α)
    (h : ¬ s.memory.length < C) :
    (remember C s x).memory = s.memory.set (s.memoryIndex % C) x := by
  rw [remember, if_neg h]

/-- Inserting one more element at the end of the sequence is one more
`remember` call. -/
theorem insertAll_concat (C : ℕ) (xs : List α) (x : α) :
    insertAll C (xs ++ [x]) = remember C (insertAll C xs) x := by
  simp [insertAll, List.foldl_concat]

/-- After inserting a whole sequence, the memory holds
`min length C` entries and the insertion counter equals the number of
insertions. -/
theorem insertAll_length (C : ℕ) (xs : List α) :
    (insertAll C xs).memory.length = min xs.length C ∧
    (insertAll C xs).memoryIndex = xs.length := by
  induction xs using List.reverseRecOn with
  | nil => simp [insertAll, Mem.empty]
  | append_singleton ys x ih =>
    rw [insertAll_concat]
    rcases ih with ⟨hl, hi⟩
    by_cases h : (insertAll C ys).memory.length < C
    · rw [remember, if_pos h]
      refine ⟨?_, by simp [hi]⟩
      rw [hl] at h
      simp only [List.length_append, List.length_singleton, hl]
      omega
    · rw [remember, if_neg h]
      rw [hl] at h
      refine ⟨?_, by simp [hi]⟩
      simp only [List.length_set, List.length_append, List.length_singleton, hl]
      omega

/-- Auxiliary division fact: decrementing a number that is not a
multiple of `C` does not change its quotient by `C`. -/
theorem div_pred_eq (m C : ℕ) (h : m % C ≠ 0) : (m - 1) / C = m / C := by
  rcases Nat.eq_zero_or_pos C with hC | hC
  · subst hC
    simp
  · have h0 : m % C < C := Nat.mod_lt _ hC
    have h1 : 1 ≤ m % C := by omega
    have hm : C * (m / C) + m % C = m := Nat.div_add_mod m C
    have hstep : m - 1 = C * (m / C) + (m % C - 1) := by
      conv_lhs => rw [← hm]
      exact Nat.add_sub_assoc h1 _
    rw [hstep, Nat.mul_add_div hC,
      Nat.div_eq_of_lt (show m % C - 1 < C by omega), Nat.add_zero]

/-- The content of logical slot `i` after inserting the sequence `xs`:
the element whose (zero-based) insertion number is the largest one
below `xs.length` congruent to `i` modulo `C`. -/
theorem insertAll_getElem (C : ℕ) (xs : List α) :
    ∀ i, i < min xs.length C →
      (insertAll C xs).memory[i]? = xs[i + C * ((xs.length - 1 - i) / C)]? := by
  induction xs using List.reverseRecOn with
  | nil => intro i hi; simp at hi
  | append_singleton ys x ih =>
    intro i hi
    rw [insertAll_concat]
    have hlen := (insertAll_length C ys).1
    have hidx := (insertAll_length C ys).2
    simp only [List.length_append, List.length_singleton] at hi ⊢
    by_cases hkC : ys.length < C
    · have hmem : (insertAll C ys).memory.length < C := by rw [hlen]; omega
      rw [remember_append C _ x hmem]
      rcases Nat.lt_or_ge i ys.length with hik | hik
      · have h1 : (ys.length + 1 - 1 - i) / C = 0 := Nat.div_eq_of_lt (by omega)
        have h2 : (ys.length - 1 - i) / C = 0 := Nat.div_eq_of_lt (by omega)
        have hml : i < (insertAll C ys).memory.length := by rw [hlen]; omega
        rw [h1, Nat.mul_zero, Nat.add_zero, List.getElem?_append_left hml,
          List.getElem?_append_left hik]
        have hrec := ih i (by omega)
        rw [h2, Nat.mul_zero, Nat.add_zero] at hrec
        exact hrec
      · have hik' : i = ys.length := by omega
        have h1 : (ys.length + 1 - 1 - i) / C = 0 := Nat.div_eq_of_lt (by omega)
        rw [h1, Nat.mul_zero, Nat.add_zero]
        have hL : (insertAll C ys).memory.length = ys.length := by rw [hlen]; omega
        rw [hik', ← hL, List.getElem?_concat_length, hL,
          List.getElem?_concat_length]
    · have hmem : ¬ (insertAll C ys).memory.length < C := by rw [hlen]; omega
      rw [remember_set C _ x hmem, hidx]
      have hiC : i < C := by omega
      have hm := Nat.div_add_mod ys.length C
      by_cases hslot : ys.length % C = i
      · rw [hslot, List.getElem?_set_self (by rw [hlen]; omega)]
        have hsub : ys.length - i = C * (ys.length / C) := by omega
        have he : ys.length + 1 - 1 - i = ys.length - i := by omega
        have hJ : i + C * ((ys.length + 1 - 1 - i) / C) = ys.length := by
          rw [he, hsub, Nat.mul_div_cancel_left _ (by omega : 0 < C)]
          omega
        rw [hJ, List.getElem?_concat_length]
      · rw [List.getElem?_set_ne (fun hc => hslot hc)]
        have hle : i ≤ ys.length := by omega
        have hmod : (ys.length - i) % C ≠ 0 := by
          intro hc
          have hdvd : C ∣ ys.length - i := Nat.dvd_of_mod_eq_zero hc
          have hmodeq : i ≡ ys.length [MOD C] := (Nat.modEq_iff_dvd' hle).mpr hdvd
          have hcc : i % C = ys.length % C := hmodeq
          rw [Nat.mod_eq_of_lt hiC] at hcc
          exact hslot hcc.symm
        have hdiv : (ys.length + 1 - 1 - i) / C = (ys.length - 1 - i) / C := by
          have he : ys.length + 1 - 1 - i = ys.length - i := by omega
          have he2 : ys.length - 1 - i = ys.length - i - 1 := by omega
          rw [he, he2, div_pred_eq _ _ hmod]
        rw [hdiv]
        have hbound : ((ys.length - 1 - i) / C) * C ≤ ys.length - 1 - i :=
          Nat.div_mul_le_self _ _
        have hcomm : ((ys.length - 1 - i) / C) * C = C * ((ys.length - 1 - i) / C) :=
          Nat.mul_comm _ _
        have hJlt : i + C * ((ys.length - 1 - i) / C) < ys.length := by omega
        rw [List.getElem?_append_left hJlt]
        exact ih i (by omega)

/-- C4: `size()` never exceeds the capacity `C`; after `k ≥ C`
insertions the size equals `C` exactly; and the transition at logical
slot `i` equals the most recently inserted transition whose zero-based
insertion number is congruent to `i` modulo `C` — latest overwrite wins
per slot. -/
theorem replay_ring (C : ℕ) (xs : List α) (hC : 1 ≤ C) (hk : C ≤ xs.length) :
    (∀ ys : List α, (insertAll C ys).memory.length ≤ C) ∧
    (insertAll C xs).memory.length = C ∧
    ∀ i, i < C → ∃ j, j < xs.length ∧ j % C = i ∧
      (∀ j2, j2 < xs.length → j2 % C = i → j2 ≤ j) ∧
      (insertAll C xs).memory[i]? = xs[j]? := by
  refine ⟨fun ys => ?_, ?_, fun i hi => ?_⟩
  · rw [(insertAll_length C ys).1]
    exact Nat.min_le_right _ _
  · rw [(insertAll_length C xs).1]
    omega
  · refine ⟨i + C * ((xs.length - 1 - i) / C), ?_, ?_, ?_, ?_⟩
    · have hbound : ((xs.length - 1 - i) / C) * C ≤ xs.length - 1 - i :=
        Nat.div_mul_le_self _ _
      have hcomm : ((xs.length - 1 - i) / C) * C = C * ((xs.length - 1 - i) / C) :=
        Nat.mul_comm _ _
      omega
    · rw [Nat.add_mul_mod_self_left, Nat.mod_eq_of_lt hi]
    · intro j2 hj2 hj2m
      have hj2e : C * (j2 / C) + j2 % C = j2 := Nat.div_add_mod j2 C
      have hq : j2 / C ≤ (xs.length - 1 - i) / C := by
        rw [Nat.le_div_iff_mul_le (by omega : 0 < C)]
        have hcomm : (j2 / C) * C = C * (j2 / C) := Nat.mul_comm _ _
        omega
      have hmul : C * (j2 / C) ≤ C * ((xs.length - 1 - i) / C) :=
        Nat.mul_le_mul_left C hq
      omega
    · exact insertAll_getElem C xs i (by omega)

/-- C4, witness: capacity 2, three insertions. -/
theorem replay_ring_witness :
    (1 ≤ 2 ∧ 2 ≤ ([10, 20, 30] : List ℕ).length) ∧
    ((∀ ys : List ℕ, (insertAll 2 ys).memory.length ≤ 2) ∧
     (insertAll 2 [10, 20, 30]).memory.length = 2 ∧
     ∀ i, i < 2 → ∃ j, j < ([10, 20, 30] : List ℕ).length ∧ j % 2 = i ∧
       (∀ j2, j2 < ([10, 20, 30] : List ℕ).length → j2 % 2 = i → j2 ≤ j) ∧
       (insertAll 2 [10, 20, 30]).memory[i]? = ([10, 20, 30] : List ℕ)[j]?) :=
  ⟨⟨by norm_num, by norm_num⟩,
    replay_ring 2 [10, 20, 30] (by norm_num) (by norm_num)⟩

/-! ### C5 — sampling validity -/

/-- Soundness of the index-selection loop: whatever indices it returns
form a duplicate-free list of exactly `n` indices, each taken from the
accumulator or from the proposal stream. -/
theorem chooseIndices_sound :
    ∀ (ps acc : List ℕ) (n : ℕ) (is : List ℕ),
      acc.Nodup → acc.length ≤ n →
      Agent.chooseIndices n acc ps = some is →
      is.Nodup ∧ is.length = n ∧ ∀ i ∈ is, i ∈ acc ∨ i ∈ ps := by
  intro ps
  induction ps with
  | nil =>
    intro acc n is hnd hle hsome
    rw [Agent.chooseIndices] at hsome
    by_cases hstop : n ≤ acc.length
    · rw [if_pos hstop] at hsome
      obtain rfl : acc.reverse = is := by
        simpa using hsome
      refine ⟨by simpa using hnd, by simp; omega, fun i hi => ?_⟩
      exact Or.inl (List.mem_reverse.mp hi)
    · rw [if_neg hstop] at hsome
      exact absurd hsome (by simp)
  | cons p rest ih =>
    intro acc n is hnd hle hsome
    rw [Agent.chooseIndices] at hsome
    by_cases hstop : n ≤ acc.length
    · rw [if_pos hstop] at hsome
      obtain rfl : acc.reverse = is := by
        simpa using hsome
      refine ⟨by simpa using hnd, by simp; omega, fun i hi => ?_⟩
      exact Or.inl (List.mem_reverse.mp hi)
    · rw [if_neg hstop] at hsome
      by_cases hp : p ∈ acc
      · rw [if_pos hp] at hsome
        obtain ⟨h1, h2, h3⟩ := ih acc n is hnd hle hsome
        exact ⟨h1, h2, fun i hi => (h3 i hi).imp_right (List.mem_cons_of_mem p)⟩
      · rw [if_neg hp] at hsome
        obtain ⟨h1, h2, h3⟩ := ih (p :: acc) n is
          (List.nodup_cons.mpr ⟨hp, hnd⟩) (by simp; omega) hsome
        refine ⟨h1, h2, fun i hi => ?_⟩
        rcases h3 i hi with hia | hir
        · rcases List.mem_cons.mp hia with rfl | hia'
          · exact Or.inr (List.mem_cons_self _ _)
          · exact Or.inl hia'
        · exact Or.inr (List.mem_cons_of_mem p hir)

/-- Completeness of the index-selection loop: a duplicate-free proposal
stream disjoint from the accumulator and long enough always produces a
batch. -/
theorem chooseIndices_some :
    ∀ (l acc : List ℕ) (n : ℕ),
      l.Nodup → (∀ p ∈ l, p ∉ acc) → n ≤ acc.length + l.length →
      ∃ is, Agent.chooseIndices n acc l = some is := by
  intro l
  induction l with
  | nil =>
    intro acc n _ _ hle
    rw [Agent.chooseIndices]
    simp only [List.length_nil, Nat.add_zero] at hle
    rw [if_pos hle]
    exact ⟨acc.reverse, rfl⟩
  | cons p rest ih =>
    intro acc n hnd hdis hle
    rw [Agent.chooseIndices]
    by_cases hstop : n ≤ acc.length
    · rw [if_pos hstop]
      exact ⟨acc.reverse, rfl⟩
    · rw [if_neg hstop]
      have hp : p ∉ acc := hdis p (List.mem_cons_self _ _)
      rw [if_neg hp]
      refine ih (p :: acc) n (List.nodup_cons.mp hnd).2 ?_ ?_
      · intro q hq
        rw [List.mem_cons]
        push_neg
        exact ⟨fun hqp => (List.nodup_cons.mp hnd).1 (hqp ▸ hq),
          hdis q (List.mem_cons_of_mem p hq)⟩
      · simp only [List.length_cons] at hle ⊢
        omega

/-- C5: for every memory with `size = s ≥ n ≥ 1` and every stream of
random index draws (each below `s`, as `Math.floor(Math.random() * s)`
always is), a batch returned by `sampleBatch` consists of exactly `n`
transitions, each read from a memory slot, no two from the same slot;
moreover some draw stream does return a batch, and the call leaves the
memory state unchanged. -/
theorem sampleBatch_valid (α : Type) (mem : List α) (n : ℕ) (ps : List ℕ)
    (d : α) (_hn : 1 ≤ n) (_hs : n ≤ mem.length)
    (hps : ∀ p ∈ ps, p < mem.length) :
    (∀ b, Agent.sampleBatch mem n ps d = some b →
      ∃ is, Agent.chooseIndices n [] ps = some is ∧
        is.Nodup ∧ is.length = n ∧ (∀ i ∈ is, i < mem.length) ∧
        b = is.map (fun i => mem.getD i d) ∧
        b.length = n ∧ ∀ y ∈ b, y ∈ mem) ∧
    (∃ b, Agent.sampleBatch mem n (List.range n) d = some b) ∧
    ∀ s : Mem α, (Agent.sampleBatchS s n ps d).2 = s := by
  refine ⟨fun b hb => ?_, ?_, fun s => rfl⟩
  · rw [Agent.sampleBatch] at hb
    rcases his : Agent.chooseIndices n [] ps with _ | is
    · rw [his] at hb
      exact absurd hb (by simp)
    · rw [his] at hb
      obtain ⟨h1, h2, h3⟩ :=
        chooseIndices_sound ps [] n is List.nodup_nil (by simp) his
      have hbnd : ∀ i ∈ is, i < mem.length := by
        intro i hi
        rcases h3 i hi with hc | hc
        · exact absurd hc (List.not_mem_nil i)
        · exact hps i hc
      have hbe : b = is.map (fun i => mem.getD i d) := by
        simpa using hb.symm
      refine ⟨is, rfl, h1, h2, hbnd, hbe, ?_, ?_⟩
      · rw [hbe, List.length_map, h2]
      · intro y hy
        rw [hbe] at hy
        obtain ⟨i, hi, rfl⟩ := List.mem_map.mp hy
        have hilt := hbnd i hi
        rw [List.getD_eq_getElem?_getD, List.getElem?_eq_getElem hilt]
        exact List.getElem_mem hilt
  · obtain ⟨is, his⟩ :=
      chooseIndices_some (List.range n) [] n (List.nodup_range n)
        (by simp) (by simp)
    exact ⟨is.map (fun i => mem.getD i d), by rw [Agent.sampleBatch, his]; rfl⟩

/-- C5, witness: memory `[5, 6, 7]`, batch size 2, draw stream
`[0, 0, 2]` (a repeated draw is skipped). -/
theorem sampleBatch_valid_witness :
    (1 ≤ 2 ∧ 2 ≤ ([5, 6, 7] : List ℕ).length ∧
      ∀ p ∈ [0, 0, 2], p < ([5, 6, 7] : List ℕ).length) ∧
    ((∀ b, Agent.sampleBatch [5, 6, 7] 2 [0, 0, 2] 0 = some b →
      ∃ is, Agent.chooseIndices 2 [] [0, 0, 2] = some is ∧
        is.Nodup ∧ is.length = 2 ∧ (∀ i ∈ is, i < ([5, 6, 7] : List ℕ).length) ∧
        b = is.map (fun i => ([5, 6, 7] : List ℕ).getD i 0) ∧
        b.length = 2 ∧ ∀ y ∈ b, y ∈ ([5, 6, 7] : List ℕ)) ∧
    (∃ b, Agent.sampleBatch [5, 6, 7] 2 (List.range 2) 0 = some b) ∧
    ∀ s : Mem ℕ, (Agent.sampleBatchS s 2 [0, 0, 2] 0).2 = s) :=
  ⟨⟨by norm_num, by norm_num, by decide⟩,
    sampleBatch_valid ℕ [5, 6, 7] 2 [0, 0, 2] 0 (by norm_num) (by norm_num)
      (by decide)⟩

/-! ### Rollout-loop lemmas shared by the pause/resume claims -/

/-- A tick advances the step counter by one. -/
theorem tickStep_steps (C : ℕ) (o : ℕ → TickOut σ) (v : LoopSt σ) :
    (tickStep C o v).steps = v.steps + 1 := rfl

/-- The loop exits immediately when its entry condition fails. -/
theorem epLoop_exit (C : ℕ) (o : ℕ → TickOut σ) (halt : ℕ → Bool)
    (v : LoopSt σ) (h : ¬ (v.done = false ∧ v.steps < maxSteps)) :
    epLoop C o halt v = (false, v) := by
  rw [epLoop, dif_neg h]

/-- The loop pauses right after a tick when the halt oracle has fired
and the tick was not terminal. -/
theorem epLoop_tick_pause (C : ℕ) (o : ℕ → TickOut σ) (halt : ℕ → Bool)
    (v : LoopSt σ) (h : v.done = false ∧ v.steps < maxSteps)
    (hh : halt v.steps = true ∧ (o v.steps).done = false) :
    epLoop C o halt v = (true, tickStep C o v) := by
  rw [epLoop, dif_pos h, if_pos hh]

/-- The loop continues past a tick when no pause is taken. -/
theorem epLoop_tick_go (C : ℕ) (o : ℕ → TickOut σ) (halt : ℕ → Bool)
    (v : LoopSt σ) (h : v.done = false ∧ v.steps < maxSteps)
    (hh : ¬ (halt v.steps = true ∧ (o v.steps).done = false)) :
    epLoop C o halt v = epLoop C o halt (tickStep C o v) := by
  conv_lhs => rw [epLoop]
  rw [dif_pos h, if_neg hh]

/-- With the halt oracle never firing, the loop never pauses. -/
theorem epLoop_no_pause_aux (C : ℕ) (o : ℕ → TickOut σ) :
    ∀ (n : ℕ) (v : LoopSt σ), maxSteps - v.steps ≤ n →
      (epLoop C o (fun _ => false) v).1 = false := by
  intro n
  induction n with
  | zero =>
    intro v hv
    rw [epLoop_exit _ _ _ _ (fun hc => absurd hc.2 (by omega))]
  | succ n ihn =>
    intro v hv
    by_cases h : v.done = false ∧ v.steps < maxSteps
    · rw [epLoop_tick_go _ _ _ _ h (by simp)]
      exact ihn _ (by rw [tickStep_steps]; omega)
    · rw [epLoop_exit _ _ _ _ h]

/-- With the halt oracle never firing, the loop never pauses. -/
theorem epLoop_no_pause (C : ℕ) (o : ℕ → TickOut σ) (v : LoopSt σ) :
    (epLoop C o (fun _ => false) v).1 = false :=
  epLoop_no_pause_aux C o maxSteps v (Nat.sub_le _ _)

/-- The pause point is an intermediate state of the uninterrupted run:
if a run pauses in state `vp`, then the never-halting run from the
original state and from `vp` end identically. -/
theorem epLoop_pause_point_aux (C : ℕ) (o : ℕ → TickOut σ) (halt : ℕ → Bool) :
    ∀ (n : ℕ) (v vp : LoopSt σ), maxSteps - v.steps ≤ n →
      epLoop C o halt v = (true, vp) →
      epLoop C o (fun _ => false) v = epLoop C o (fun _ => false) vp := by
  intro n
  induction n with
  | zero =>
    intro v vp hv heq
    rw [epLoop_exit _ _ _ _ (fun hc => absurd hc.2 (by omega))] at heq
    exact absurd heq (by simp)
  | succ n ihn =>
    intro v vp hv heq
    by_cases h : v.done = false ∧ v.steps < maxSteps
    · by_cases hh : halt v.steps = true ∧ (o v.steps).done = false
      · rw [epLoop_tick_pause _ _ _ _ h hh] at heq
        have hvp : tickStep C o v = vp := by
          simpa using heq
        rw [epLoop_tick_go _ _ _ _ h (by simp), hvp]
      · rw [epLoop_tick_go _ _ _ _ h hh] at heq
        rw [epLoop_tick_go _ _ _ _ h (by simp)]
        exact ihn _ vp (by rw [tickStep_steps]; omega) heq
    · rw [epLoop_exit _ _ _ _ h] at heq
      exact absurd heq (by simp)

/-- Wrapper for `epLoop_pause_point_aux` at the trivial depth bound. -/
theorem epLoop_pause_point (C : ℕ) (o : ℕ → TickOut σ) (halt : ℕ → Bool)
    (v vp : LoopSt σ) (heq : epLoop C o halt v = (true, vp)) :
    epLoop C o (fun _ => false) v = epLoop C o (fun _ => false) vp :=
  epLoop_pause_point_aux C o halt maxSteps v vp (Nat.sub_le _ _) heq

/-- Episode initialisation from a paused agent (agent.js lines 140–147):
restore the loop variables from the snapshot and clear only the pause
flag — the snapshot itself stays in place. -/
theorem initVars_of_paused (s0 : σ) (a : AgentState σ) (es : EpSnap σ)
    (hp : a.isPaused = true) (hc : a.currentEpisodeState = some es) :
    initVars s0 a =
      ({ a with isPaused := false },
        ⟨es.state, es.done, es.totalReward, es.steps, a.mem, a.totalSteps⟩) := by
  simp [initVars, hp, hc]

/-- Episode initialisation from an unpaused agent (agent.js lines
148–154): fresh episode variables, agent untouched. -/
theorem initVars_of_unpaused (s0 : σ) (a : AgentState σ)
    (hp : a.isPaused = false) :
    initVars s0 a = (a, ⟨s0, false, 0, 0, a.mem, a.totalSteps⟩) := by
  rcases hc : a.currentEpisodeState with _ | es <;> simp [initVars, hp, hc]

/-- Episode initialisation touches at most the pause flag of the agent. -/
theorem initVars_fst_cases (s0 : σ) (a : AgentState σ) :
    (initVars s0 a).1 = a ∨ (initVars s0 a).1 = { a with isPaused := false } := by
  rcases hc : a.currentEpisodeState with _ | es
  · left
    simp [initVars, hc]
  · cases hp : a.isPaused
    · left
      simp [initVars, hc, hp]
    · right
      simp [initVars, hc, hp]

/-- The agent fields other than the pause flag are unchanged by episode
initialisation. -/
theorem initVars_fst_frame (s0 : σ) (a : AgentState σ) :
    (initVars s0 a).1.epsilon = a.epsilon ∧
    (initVars s0 a).1.epsilonDecay = a.epsilonDecay ∧
    (initVars s0 a).1.epsilonMin = a.epsilonMin ∧
    (initVars s0 a).1.memoryMaxLen = a.memoryMaxLen ∧
    (initVars s0 a).1.episode = a.episode ∧
    (initVars s0 a).1.episodeRewards = a.episodeRewards ∧
    (initVars s0 a).1.episodeScores = a.episodeScores ∧
    (initVars s0 a).1.episodeLengths = a.episodeLengths := by
  rcases initVars_fst_cases s0 a with h | h <;> rw [h] <;>
    exact ⟨rfl, rfl, rfl, rfl, rfl, rfl, rfl, rfl⟩

/-! ### C2 — snapshot lifecycle -/

/-- C2, counterexample: resuming a paused episode (the restore stage of
`trainEpisode`, observable at every suspension point of the resumed
rollout) clears `isPaused` but leaves the saved `EpisodeState` in
place, so a non-null snapshot coexists with the not-paused state — the
snapshot is consumed only when the episode completes, not when it
resumes. -/
theorem snapshot_survives_resume :
    (initVars 0 pausedAgent).1.isPaused = false ∧
    (initVars 0 pausedAgent).1.currentEpisodeState = some ⟨5, false, 2, 3⟩ := by
  rw [initVars_of_paused 0 pausedAgent ⟨5, false, 2, 3⟩ rfl rfl]
  exact ⟨rfl, rfl⟩

/-- C2, amended: on resume only the pause flag is cleared while the
snapshot survives for the whole resumed episode; the invariant
"non-null snapshot implies paused" holds at `trainEpisode` call
boundaries: a call returning the `null` sentinel leaves the agent
paused with a live snapshot, and a call returning a completed episode
leaves the agent unpaused with no snapshot. -/
theorem snapshot_lifecycle (σ : Type) (a : AgentState σ) (s0 : σ)
    (es : EpSnap σ) (o : ℕ → TickOut σ) (halt : ℕ → Bool) (sc : ℕ)
    (h1 : a.isPaused = true) (h2 : a.currentEpisodeState = some es) :
    (initVars s0 a).1 = { a with isPaused := false } ∧
    ((trainEpisodeM o halt s0 sc a).1 = none →
       (trainEpisodeM o halt s0 sc a).2.1.isPaused = true ∧
       (trainEpisodeM o halt s0 sc a).2.1.currentEpisodeState.isSome = true) ∧
    (∀ r, (trainEpisodeM o halt s0 sc a).1 = some r →
       (trainEpisodeM o halt s0 sc a).2.1.isPaused = false ∧
       (trainEpisodeM o halt s0 sc a).2.1.currentEpisodeState = none) := by
  refine ⟨by rw [initVars_of_paused s0 a es h1 h2], ?_, ?_⟩
  · by_cases hL :
      (epLoop (initVars s0 a).1.memoryMaxLen o halt (initVars s0 a).2).1 = true
    · intro _
      simp only [trainEpisodeM, hL, if_true]
      exact ⟨trivial, Option.isSome_some⟩
    · intro hc
      simp only [trainEpisodeM, hL, if_false] at hc
      exact absurd hc (by simp)
  · by_cases hL :
      (epLoop (initVars s0 a).1.memoryMaxLen o halt (initVars s0 a).2).1 = true
    · intro r hc
      simp only [trainEpisodeM, hL, if_true] at hc
      exact absurd hc (by simp)
    · intro r _
      simp only [trainEpisodeM, hL, Bool.false_eq_true, if_false]
      exact ⟨trivial, trivial⟩

/-! ### C8 — frame of a mid-episode halt -/

/-- C8: when a call to `trainEpisode` is halted mid-episode (it returns
the `null` sentinel), the agent is left paused with a live snapshot,
the learning step `replay` was not invoked, and `epsilon`, all three
statistics arrays and the episode index are unchanged. -/
theorem halt_mid_episode_frame (σ : Type) (o : ℕ → TickOut σ)
    (halt : ℕ → Bool) (s0 : σ) (sc : ℕ) (a : AgentState σ)
    (hp : (trainEpisodeM o halt s0 sc a).1 = none) :
    (trainEpisodeM o halt s0 sc a).2.1.isPaused = true ∧
    (trainEpisodeM o halt s0 sc a).2.1.currentEpisodeState.isSome = true ∧
    (trainEpisodeM o halt s0 sc a).2.2 = false ∧
    (trainEpisodeM o halt s0 sc a).2.1.epsilon = a.epsilon ∧
    (trainEpisodeM o halt s0 sc a).2.1.episodeRewards = a.episodeRewards ∧
    (trainEpisodeM o halt s0 sc a).2.1.episodeScores = a.episodeScores ∧
    (trainEpisodeM o halt s0 sc a).2.1.episodeLengths = a.episodeLengths ∧
    (trainEpisodeM o halt s0 sc a).2.1.episode = a.episode := by
  obtain ⟨hf1, _, _, _, hf5, hf6, hf7, hf8⟩ := initVars_fst_frame s0 a
  by_cases hL :
    (epLoop (initVars s0 a).1.memoryMaxLen o halt (initVars s0 a).2).1 = true
  · simp only [trainEpisodeM, hL, if_true]
    refine ⟨trivial, Option.isSome_some, trivial, ?_, ?_, ?_, ?_, ?_⟩
    exacts [hf1, hf6, hf7, hf8, hf5]
  · exfalso
    simp only [trainEpisodeM, hL, if_false] at hp
    exact absurd hp (by simp)

/-! ### C9 — epsilon update and monotone decay -/

/-- Lower bound by `epsilonMin` for the iterated epsilon decay. -/
theorem epsIter_lb (m d e0 : ℚ) (hme : m ≤ e0) : ∀ k, m ≤ epsIter m d e0 k
  | 0 => hme
  | _ + 1 => le_max_left _ _

/-- C9: every completed episode updates `epsilon` to
`max(epsilonMin, epsilon * epsilonDecay)`; iterating that update (with
`0 ≤ epsilonDecay ≤ 1`, `0 ≤ epsilonMin ≤ ε₀`) yields a sequence that
is non-increasing and bounded below by `epsilonMin`. -/
theorem epsilon_decay_course (σ : Type) (o : ℕ → TickOut σ)
    (halt : ℕ → Bool) (s0 : σ) (sc : ℕ) (a : AgentState σ) (r : Result)
    (m d e0 : ℚ) (k : ℕ)
    (hp : (trainEpisodeM o halt s0 sc a).1 = some r)
    (_hd0 : 0 ≤ d) (hd1 : d ≤ 1) (hm0 : 0 ≤ m) (hme : m ≤ e0) :
    (trainEpisodeM o halt s0 sc a).2.1.epsilon =
      epsUpdate a.epsilonMin a.epsilonDecay a.epsilon ∧
    epsIter m d e0 (k + 1) ≤ epsIter m d e0 k ∧
    m ≤ epsIter m d e0 k := by
  obtain ⟨hf1, hf2, hf3, _, _, _, _, _⟩ := initVars_fst_frame s0 a
  refine ⟨?_, ?_, epsIter_lb m d e0 hme k⟩
  · by_cases hL :
      (epLoop (initVars s0 a).1.memoryMaxLen o halt (initVars s0 a).2).1 = true
    · exfalso
      simp only [trainEpisodeM, hL, if_true] at hp
      exact absurd hp (by simp)
    · simp only [trainEpisodeM, hL, if_false]
      show max (initVars s0 a).1.epsilonMin
        ((initVars s0 a).1.epsilon * (initVars s0 a).1.epsilonDecay) = _
      rw [hf1, hf2, hf3, epsUpdate]
  · show epsUpdate m d (epsIter m d e0 k) ≤ epsIter m d e0 k
    rw [epsUpdate]
    refine max_le (epsIter_lb m d e0 hme k) ?_
    exact mul_le_of_le_one_right (le_trans hm0 (epsIter_lb m d e0 hme k)) hd1

/-! ### C7 — pause/resume equivalence -/

/-- C7: an episode halted mid-run (the call returned the `null`
sentinel) and then resumed with no further halts ends with exactly the
same completed-episode result — same `totalReward`, same `steps`, and
completion (`done`) — as the same episode run uninterrupted with the
same tick oracle: no simulated tick is lost or duplicated by the
pause/resume cycle. -/
theorem pause_resume_equiv (σ : Type) (o : ℕ → TickOut σ) (halt : ℕ → Bool)
    (s0 : σ) (sc : ℕ) (a : AgentState σ)
    (ha : a.isPaused = false)
    (hp : (trainEpisodeM o halt s0 sc a).1 = none) :
    (trainEpisodeM o (fun _ => false) s0 sc
        ((trainEpisodeM o halt s0 sc a).2.1)).1 =
      (trainEpisodeM o (fun _ => false) s0 sc a).1 ∧
    ((trainEpisodeM o (fun _ => false) s0 sc a).1).isSome = true := by
  have hinit := initVars_of_unpaused s0 a ha
  by_cases hL :
    (epLoop (initVars s0 a).1.memoryMaxLen o halt (initVars s0 a).2).1 = true
  · have hL' : (epLoop a.memoryMaxLen o halt
        ⟨s0, false, 0, 0, a.mem, a.totalSteps⟩).1 = true := by
      rw [hinit] at hL
      exact hL
    obtain ⟨vp, hvp⟩ : ∃ vp,
        epLoop a.memoryMaxLen o halt ⟨s0, false, 0, 0, a.mem, a.totalSteps⟩ =
          (true, vp) :=
      ⟨_, Prod.ext hL' rfl⟩
    have hpp := epLoop_pause_point a.memoryMaxLen o halt _ _ hvp
    have hnp0 := epLoop_no_pause a.memoryMaxLen o
      (⟨s0, false, 0, 0, a.mem, a.totalSteps⟩ : LoopSt σ)
    have hA : (trainEpisodeM o halt s0 sc a).2.1 =
        { a with
          currentEpisodeState := some ⟨vp.state, vp.done, vp.totalReward, vp.steps⟩,
          isPaused := true, mem := vp.mem, totalSteps := vp.totalSteps } := by
      simp only [trainEpisodeM, hinit, hvp, if_true]
    have hinit2 := initVars_of_paused s0
      ({ a with
          currentEpisodeState := some ⟨vp.state, vp.done, vp.totalReward, vp.steps⟩,
          isPaused := true, mem := vp.mem, totalSteps := vp.totalSteps })
      ⟨vp.state, vp.done, vp.totalReward, vp.steps⟩ rfl rfl
    rw [hA]
    constructor
    · simp only [trainEpisodeM, hinit, hinit2, ← hpp, hnp0, Bool.false_eq_true,
        if_false, if_true]
    · simp only [trainEpisodeM, hinit, hnp0, Bool.false_eq_true, if_false,
        Option.isSome_some]
  · exfalso
    simp only [trainEpisodeM, hL, if_false] at hp
    exact absurd hp (by simp)

/-! ### Concrete runs of the rollout loop, for the witnesses -/

/-- Full run of the loop under `oTest` with no halt: four ticks, then
the terminal tick ends the episode. -/
theorem epLoop_oTest_full :
    epLoop 10000 oTest (fun _ => false) ⟨0, false, 0, 0, Mem.empty _, 0⟩ =
      (false, ⟨4, true, 4, 4, memT, 4⟩) := by
  rw [epLoop]
  norm_num [oTest, maxSteps, tickStep, remember, Mem.empty]
  rw [epLoop]
  norm_num [oTest, maxSteps, tickStep, remember]
  rw [epLoop]
  norm_num [oTest, maxSteps, tickStep, remember]
  rw [epLoop]
  norm_num [oTest, maxSteps, tickStep, remember]
  rw [epLoop]
  norm_num [oTest, maxSteps, tickStep, remember, memT]

/-- Run of the loop under `oTest` with a halt request after tick 1:
two ticks, then the pause is taken. -/
theorem epLoop_oTest_halt1 :
    epLoop 10000 oTest (haltAt 1) ⟨0, false, 0, 0, Mem.empty _, 0⟩ =
      (true, ⟨2, false, 2, 2, memP, 2⟩) := by
  rw [epLoop]
  norm_num [oTest, haltAt, maxSteps, tickStep, remember, Mem.empty]
  rw [epLoop]
  norm_num [oTest, haltAt, maxSteps, tickStep, remember, memP]

/-- Run of the loop under `oTest` with an immediate halt request:
one tick, then the pause is taken. -/
theorem epLoop_oTest_haltNow :
    epLoop 10000 oTest (fun _ => true) ⟨0, false, 0, 0, Mem.empty _, 0⟩ =
      (true, ⟨1, false, 1, 1, mem1, 1⟩) := by
  rw [epLoop]
  norm_num [oTest, maxSteps, tickStep, remember, Mem.empty, mem1]

/-! ### Witnesses for the pause/resume and epsilon claims -/

/-- C2, witness: the lifecycle theorem applied to `pausedAgent`. -/
theorem snapshot_lifecycle_witness :
    (pausedAgent.isPaused = true ∧
     pausedAgent.currentEpisodeState = some ⟨5, false, 2, 3⟩) ∧
    ((initVars 0 pausedAgent).1 = { pausedAgent with isPaused := false } ∧
     ((trainEpisodeM oTest (fun _ => false) 0 7 pausedAgent).1 = none →
        (trainEpisodeM oTest (fun _ => false) 0 7 pausedAgent).2.1.isPaused = true ∧
        (trainEpisodeM oTest (fun _ => false) 0 7
            pausedAgent).2.1.currentEpisodeState.isSome = true) ∧
     (∀ r, (trainEpisodeM oTest (fun _ => false) 0 7 pausedAgent).1 = some r →
        (trainEpisodeM oTest (fun _ => false) 0 7 pausedAgent).2.1.isPaused = false ∧
        (trainEpisodeM oTest (fun _ => false) 0 7
            pausedAgent).2.1.currentEpisodeState = none)) :=
  ⟨⟨rfl, rfl⟩,
    snapshot_lifecycle ℕ pausedAgent 0 ⟨5, false, 2, 3⟩ oTest (fun _ => false) 7
      rfl rfl⟩

/-- C8, witness: a halt requested from the very first tick. -/
theorem halt_mid_episode_frame_witness :
    (trainEpisodeM oTest (fun _ => true) 0 7 aTest).1 = none ∧
    ((trainEpisodeM oTest (fun _ => true) 0 7 aTest).2.1.isPaused = true ∧
     (trainEpisodeM oTest (fun _ => true) 0 7
        aTest).2.1.currentEpisodeState.isSome = true ∧
     (trainEpisodeM oTest (fun _ => true) 0 7 aTest).2.2 = false ∧
     (trainEpisodeM oTest (fun _ => true) 0 7 aTest).2.1.epsilon = aTest.epsilon ∧
     (trainEpisodeM oTest (fun _ => true) 0 7 aTest).2.1.episodeRewards =
       aTest.episodeRewards ∧
     (trainEpisodeM oTest (fun _ => true) 0 7 aTest).2.1.episodeScores =
       aTest.episodeScores ∧
     (trainEpisodeM oTest (fun _ => true) 0 7 aTest).2.1.episodeLengths =
       aTest.episodeLengths ∧
     (trainEpisodeM oTest (fun _ => true) 0 7 aTest).2.1.episode =
       aTest.episode) := by
  have hp : (trainEpisodeM oTest (fun _ => true) 0 7 aTest).1 = none := by
    rw [trainEpisodeM,
      show initVars (0 : ℕ) aTest = (aTest, ⟨0, false, 0, 0, Mem.empty _, 0⟩)
        from rfl,
      show aTest.memoryMaxLen = 10000 from rfl, epLoop_oTest_haltNow]
    rfl
  exact ⟨hp, halt_mid_episode_frame ℕ oTest (fun _ => true) 0 7 aTest hp⟩

/-- C9, witness: a completed episode under `oTest`, and five decay
iterations from the documented hyperparameters. -/
theorem epsilon_decay_course_witness :
    ((trainEpisodeM oTest (fun _ => false) 0 7 aTest).1 = some ⟨1, 7, 4, 4⟩ ∧
     (0 : ℚ) ≤ 9995 / 10000 ∧ (9995 : ℚ) / 10000 ≤ 1 ∧
     (0 : ℚ) ≤ 1 / 100 ∧ (1 : ℚ) / 100 ≤ 3 / 10) ∧
    ((trainEpisodeM oTest (fun _ => false) 0 7 aTest).2.1.epsilon =
       epsUpdate aTest.epsilonMin aTest.epsilonDecay aTest.epsilon ∧
     epsIter (1 / 100) (9995 / 10000) (3 / 10) (5 + 1) ≤
       epsIter (1 / 100) (9995 / 10000) (3 / 10) 5 ∧
     (1 : ℚ) / 100 ≤ epsIter (1 / 100) (9995 / 10000) (3 / 10) 5) := by
  have hp : (trainEpisodeM oTest (fun _ => false) 0 7 aTest).1 =
      some ⟨1, 7, 4, 4⟩ := by
    rw [trainEpisodeM,
      show initVars (0 : ℕ) aTest = (aTest, ⟨0, false, 0, 0, Mem.empty _, 0⟩)
        from rfl,
      show aTest.memoryMaxLen = 10000 from rfl, epLoop_oTest_full]
    rfl
  exact ⟨⟨hp, by norm_num, by norm_num, by norm_num, by norm_num⟩,
    epsilon_decay_course ℕ oTest (fun _ => false) 0 7 aTest ⟨1, 7, 4, 4⟩
      (1 / 100) (9995 / 10000) (3 / 10) 5 hp (by norm_num) (by norm_num)
      (by norm_num) (by norm_num)⟩

/-- C7, witness: the same oracle run uninterrupted versus halted after
tick 1 and resumed. -/
theorem pause_resume_equiv_witness :
    (aTest.isPaused = false ∧
     (trainEpisodeM oTest (haltAt 1) 0 7 aTest).1 = none) ∧
    ((trainEpisodeM oTest (fun _ => false) 0 7
        ((trainEpisodeM oTest (haltAt 1) 0 7 aTest).2.1)).1 =
      (trainEpisodeM oTest (fun _ => false) 0 7 aTest).1 ∧
     ((trainEpisodeM oTest (fun _ => false) 0 7 aTest).1).isSome = true) := by
  have hp : (trainEpisodeM oTest (haltAt 1) 0 7 aTest).1 = none := by
    rw [trainEpisodeM,
      show initVars (0 : ℕ) aTest = (aTest, ⟨0, false, 0, 0, Mem.empty _, 0⟩)
        from rfl,
      show aTest.memoryMaxLen = 10000 from rfl, epLoop_oTest_halt1]
    rfl
  exact ⟨⟨rfl, hp⟩, pause_resume_equiv ℕ oTest (haltAt 1) 0 7 aTest rfl hp⟩
